import Mathlib

/-!
Shallow embedding of `main.py` of the BriefBase SRA Finder service
(an HTTP proxy that validates a UK postcode, fetches the organisation
directory from an upstream API with host fallback, and filters for
active organisations with an office whose outward code matches).

Strings are modelled as `List Char`; record payloads as structures with
`Option` fields (a `none` field models an absent/null JSON key).
-/

namespace SRA

/-- Python's `\s` over ASCII (and the characters `str.strip` removes):
space, tab, newline, carriage return, vertical tab, form feed. -/
def isPySpace (c : Char) : Bool :=
  c = ' ' || c = '\t' || c = '\n' || c = '\r' || c = '\x0b' || c = '\x0c'

/-- Per-character model of Python `str.upper` (ASCII range). -/
def pyUpper (c : Char) : Char :=
  if 'a' ≤ c && c ≤ 'z' then Char.ofNat (c.toNat - 32) else c

/-- Per-character model of Python `str.lower` (ASCII range). -/
def pyLower (c : Char) : Char :=
  if 'A' ≤ c && c ≤ 'Z' then Char.ofNat (c.toNat + 32) else c

/-- `re.sub(r"\s+", " ", s)`: replace every maximal run of whitespace by a
single space.  The boolean argument records whether the previous character
was part of a whitespace run. -/
def collapseWS : Bool → List Char → List Char
  | _, [] => []
  | prevSp, c :: cs =>
    if isPySpace c then
      if prevSp then collapseWS true cs else ' ' :: collapseWS true cs
    else c :: collapseWS false cs

/-- Python `str.strip()`: drop whitespace from both ends. -/
def trimWS (l : List Char) : List Char :=
  ((l.dropWhile isPySpace).reverse.dropWhile isPySpace).reverse

/-- `normalise_postcode`: `pc = (pc or "").upper()`;
`pc = re.sub(r"\s+", " ", pc).strip()`. -/
def normalise_postcode (pc : List Char) : List Char :=
  trimWS (collapseWS false (pc.map pyUpper))

/-- `needle` is a prefix of `hay` (helper for Python's `in`). -/
def isPrefixList : List Char → List Char → Bool
  | [], _ => true
  | _ :: _, [] => false
  | a :: as, b :: bs => a = b && isPrefixList as bs

/-- Python's substring test `needle in hay`. -/
def containsSub (needle : List Char) : List Char → Bool
  | [] => needle.isEmpty
  | c :: rest => isPrefixList needle (c :: rest) || containsSub needle rest

/-- `outward_code`: normalise; if the string contains a space return the part
before the first space (`pc.split(" ", 1)[0]`); otherwise `pc[:-3]` when the
length exceeds 3, else the string itself. -/
def outward_code (pc : List Char) : List Char :=
  let n := normalise_postcode pc
  if containsSub [' '] n then n.takeWhile (fun c => c != ' ')
  else if 3 < n.length then n.take (n.length - 3)
  else n

/-! ### Shape predicates for normalised strings -/

/-- The head of the list, when present, is not whitespace. -/
def HeadNotSpace (l : List Char) : Prop :=
  ∀ c, l.head? = some c → isPySpace c = false

/-- All whitespace characters in the list are the plain blank. -/
def SpacesBlank (l : List Char) : Prop :=
  ∀ c ∈ l, isPySpace c = true → c = ' '

/-- Every character is a fixed point of `pyUpper`. -/
def AllUpper (l : List Char) : Prop :=
  ∀ c ∈ l, pyUpper c = c

/-- No two adjacent characters are both whitespace. -/
def NoAdjSpace (l : List Char) : Prop :=
  l.Chain' fun a b => ¬(isPySpace a = true ∧ isPySpace b = true)

/-! ### The validation pattern `UK_PC_RE`

The source pattern (flags `IGNORECASE | VERBOSE`) is

    ^\s*
    (GIR\s?0AA|
     (?:[A-PR-UWYZ][0-9][0-9]?|
        [A-PR-UWYZ][A-HK-Y][0-9][0-9]?|
        [A-PR-UWYZ][0-9][A-HJKPSTUW]?|
        [A-PR-UWYZ][A-HK-Y][0-9][ABEHMNPRVWXY]?)
     \s?[0-9][ABD-HJLNP-UW-Z]{2})
    \s*$

Every alternative of the parenthesised core starts and ends with a
non-whitespace character class, so the anchored `^\s*` and `\s*$` consume
exactly the whitespace margins of the subject: the pattern matches a string
iff the core matches the string with its whitespace margins removed.  The
core is a finite union of fixed-length character-class sequences, embedded
below by enumerating the possible lengths. -/

/-- `[A-PR-UWYZ]`, case-insensitively (first, area letter). -/
def isAreaL (c : Char) : Bool :=
  let u := pyUpper c
  ('A' ≤ u && u ≤ 'P') || ('R' ≤ u && u ≤ 'U') || u = 'W' || u = 'Y' || u = 'Z'

/-- `[A-HK-Y]`, case-insensitively (second area letter). -/
def isSecondL (c : Char) : Bool :=
  let u := pyUpper c
  ('A' ≤ u && u ≤ 'H') || ('K' ≤ u && u ≤ 'Y')

/-- `[0-9]`. -/
def isDigitC (c : Char) : Bool :=
  '0' ≤ c && c ≤ '9'

/-- `[A-HJKPSTUW]`, case-insensitively (optional trailing letter of the
third outward alternative). -/
def isThirdOpt (c : Char) : Bool :=
  let u := pyUpper c
  ('A' ≤ u && u ≤ 'H') || u = 'J' || u = 'K' || u = 'P' || u = 'S' ||
    u = 'T' || u = 'U' || u = 'W'

/-- `[ABEHMNPRVWXY]`, case-insensitively (optional trailing letter of the
fourth outward alternative). -/
def isFourthOpt (c : Char) : Bool :=
  let u := pyUpper c
  u = 'A' || u = 'B' || u = 'E' || u = 'H' || u = 'M' || u = 'N' ||
    u = 'P' || u = 'R' || u = 'V' || u = 'W' || u = 'X' || u = 'Y'

/-- `[ABD-HJLNP-UW-Z]`, case-insensitively (unit letters). -/
def isUnitL (c : Char) : Bool :=
  let u := pyUpper c
  u = 'A' || u = 'B' || ('D' ≤ u && u ≤ 'H') || u = 'J' || u = 'L' ||
    u = 'N' || ('P' ≤ u && u ≤ 'U') || ('W' ≤ u && u ≤ 'Z')

/-- The outward alternation
`[A-PR-UWYZ][0-9][0-9]? | [A-PR-UWYZ][A-HK-Y][0-9][0-9]? |
 [A-PR-UWYZ][0-9][A-HJKPSTUW]? | [A-PR-UWYZ][A-HK-Y][0-9][ABEHMNPRVWXY]?`,
enumerated by length (2, 3 or 4 characters). -/
def outwardMatch : List Char → Bool
  | [a, b] => isAreaL a && isDigitC b
  | [a, b, c] =>
    (isAreaL a && isDigitC b && isDigitC c) ||
    (isAreaL a && isSecondL b && isDigitC c) ||
    (isAreaL a && isDigitC b && isThirdOpt c)
  | [a, b, c, d] =>
    (isAreaL a && isSecondL b && isDigitC c && isDigitC d) ||
    (isAreaL a && isSecondL b && isDigitC c && isFourthOpt d)
  | _ => false

/-- The inward part `[0-9][ABD-HJLNP-UW-Z]{2}`. -/
def inwardMatch (d u1 u2 : Char) : Bool :=
  isDigitC d && isUnitL u1 && isUnitL u2

/-- The special-cased alternative `GIR\s?0AA`, case-insensitively. -/
def girMatch : List Char → Bool
  | [g, i, r, z, a1, a2] =>
    pyUpper g = 'G' && pyUpper i = 'I' && pyUpper r = 'R' &&
    z = '0' && pyUpper a1 = 'A' && pyUpper a2 = 'A'
  | [g, i, r, s, z, a1, a2] =>
    pyUpper g = 'G' && pyUpper i = 'I' && pyUpper r = 'R' && isPySpace s &&
    z = '0' && pyUpper a1 = 'A' && pyUpper a2 = 'A'
  | _ => false

/-- The parenthesised core of `UK_PC_RE`: either the GIR special case, or an
outward part, an optional single whitespace character (`\s?`), and the
3-character inward part.  Enumerated by total length (5 to 8 characters). -/
def coreMatch (t : List Char) : Bool :=
  girMatch t ||
  match t with
  | [a, b, c, d, e] => outwardMatch [a, b] && inwardMatch c d e
  | [a, b, c, d, e, f] =>
    (outwardMatch [a, b, c] && inwardMatch d e f) ||
    (outwardMatch [a, b] && isPySpace c && inwardMatch d e f)
  | [a, b, c, d, e, f, g] =>
    (outwardMatch [a, b, c, d] && inwardMatch e f g) ||
    (outwardMatch [a, b, c] && isPySpace d && inwardMatch e f g)
  | [a, b, c, d, e, f, g, h] =>
    outwardMatch [a, b, c, d] && isPySpace e && inwardMatch f g h
  | _ => false

/-- `UK_PC_RE.match(s)` as a boolean: the anchored pattern strips the
whitespace margins and requires the core to match the remainder. -/
def ukpcMatch (s : List Char) : Bool :=
  coreMatch (trimWS s)

/-! ### Declarative reading of the validation grammar -/

/-- An optional single whitespace character (`\s?`). -/
def OptWS (m : List Char) : Prop :=
  m = [] ∨ ∃ w, isPySpace w = true ∧ m = [w]

/-- Declarative reading of `GIR\s?0AA` (case-insensitive). -/
def GirSpec (t : List Char) : Prop :=
  ∃ g i r m z a1 a2, t = g :: i :: r :: (m ++ [z, a1, a2]) ∧ OptWS m ∧
    pyUpper g = 'G' ∧ pyUpper i = 'I' ∧ pyUpper r = 'R' ∧ z = '0' ∧
    pyUpper a1 = 'A' ∧ pyUpper a2 = 'A'

/-- Declarative reading of the main alternative: an outward part, an
optional single whitespace, and the sector digit with two unit letters. -/
def MainSpec (t : List Char) : Prop :=
  ∃ ow m d u1 u2, t = ow ++ m ++ [d, u1, u2] ∧ outwardMatch ow = true ∧
    OptWS m ∧ inwardMatch d u1 u2 = true

/-- Declarative reading of the whole parenthesised core. -/
def CoreSpec (t : List Char) : Prop :=
  GirSpec t ∨ MainSpec t

/-! ### Upstream data model

JSON records are modelled structurally; an `Option` field is `none` when the
key is absent or null.  String-valued fields keep Lean `String`s; postcode
computations convert to `List Char` via `String.data`. -/

/-- Python's `a or b` on two optional strings: `None` and `""` are falsy. -/
def pyOrStr (a b : Option String) : Option String :=
  match a with
  | some s => if s = "" then b else some s
  | none => b

structure Address where
  postCode : Option String
  address1 : Option String
  town : Option String
deriving DecidableEq

structure Office where
  address : Option Address
deriving DecidableEq

structure Org where
  organisationID : Option String
  organisationName : Option String
  email : Option String
  generalEmail : Option String
  phone : Option String
  authorisationStatus : Option String
  offices : Option (List Office)
deriving DecidableEq

structure SearchResult where
  organisationID : Option String
  name : Option String
  email : Option String
  phone : Option String
  postcode : Option String
  address1 : Option String
  town : Option String
  authorisationStatus : Option String
deriving DecidableEq

/-- `office.get("Address", {}) or {}`. -/
def emptyAddress : Address := ⟨none, none, none⟩

def addrOf (office : Office) : Address :=
  office.address.getD emptyAddress

/-- `org.get("Offices", []) or []`. -/
def officesOf (org : Org) : List Office :=
  org.offices.getD []

/-! ### `looks_active` -/

/-- The keyword list of `looks_active`. -/
def activeKeywords : List (List Char) :=
  ["authorised".data, "registered".data, "authorised body".data,
    "recognised body".data]

/-- The local `status` of `looks_active`:
`(org.get("AuthorisationStatus") or "").strip().lower()`. -/
def statusNorm (org : Org) : List Char :=
  (trimWS (org.authorisationStatus.getD "").data).map pyLower

/-- `looks_active`: `any(w in status for w in [...])`. -/
def looks_active (org : Org) : Bool :=
  activeKeywords.any fun w => containsSub w (statusNorm org)

/-- An organisation record with the given authorisation status and every
other field absent (used to instantiate theorems at concrete inputs). -/
def orgWithStatus (s : Option String) : Org :=
  ⟨none, none, none, none, none, s, none⟩

/-! ### `office_matches_postcode` -/

/-- `office_matches_postcode`: `pc = addrs.get("PostCode") or ""`;
`if not pc: return False`; else compare outward codes. -/
def office_matches_postcode (office : Office) (target : List Char) : Bool :=
  let pc := (addrOf office).postCode.getD ""
  if pc = "" then false
  else decide (outward_code pc.data = outward_code target)

/-! ### `call_sra_json` (upstream fetcher)

The network is modelled by the per-host outcome of the single GET request
the source issues against that host: either a 2xx response with parseable
JSON body, or one of the three failure categories the source catches
(`HTTPError`, `SSLError`, other `RequestException`). -/

inductive ApiError where
  | http (status : Nat) (detail : String)
deriving DecidableEq

inductive HostOutcome (α : Type) where
  | success (json : α)
  | httpError (detail : String)
  | sslError (msg : String)
  | reqError (msg : String)
deriving DecidableEq

def HostOutcome.isFailure {α : Type} : HostOutcome α → Bool
  | .success _ => false
  | _ => true

/-- The `last_error` string the source records for a failed host. -/
def outcomeMsg {α : Type} (base : String) : HostOutcome α → Option String
  | .success _ => none
  | .httpError d => some ("HTTPError on " ++ base ++ ": " ++ d)
  | .sslError m => some ("SSLError on " ++ base ++ ": " ++ m)
  | .reqError m => some ("Network error on " ++ base ++ ": " ++ m)

/-- Python's f-string rendering of `last_error` (an `Option`). -/
def renderLastError : Option String → String
  | none => "None"
  | some s => s

/-- The host loop of `call_sra_json`: try each base in order, return the
first successful JSON, record the failure message otherwise; after the loop
raise `HTTPException(502, ...)` with the last recorded error. -/
def callLoop {α : Type} (lastError : Option String) :
    List (String × HostOutcome α) → Except ApiError α
  | [] =>
    .error (.http 502 ("SRA API network error: " ++ renderLastError lastError))
  | (base, out) :: rest =>
    match out with
    | .success j => .ok j
    | .httpError d => callLoop (some ("HTTPError on " ++ base ++ ": " ++ d)) rest
    | .sslError m => callLoop (some ("SSLError on " ++ base ++ ": " ++ m)) rest
    | .reqError m =>
      callLoop (some ("Network error on " ++ base ++ ": " ++ m)) rest

def call_sra_json {α : Type} (attempts : List (String × HostOutcome α)) :
    Except ApiError α :=
  callLoop none attempts

/-! ### `/search`: filter and project -/

/-- The record appended for a matching office of an active organisation. -/
def projectOrg (org : Org) (office : Office) : SearchResult :=
  let addrs := addrOf office
  { organisationID := org.organisationID
    name := org.organisationName
    email := pyOrStr org.email org.generalEmail
    phone := org.phone
    postcode := addrs.postCode
    address1 := addrs.address1
    town := addrs.town
    authorisationStatus := org.authorisationStatus }

/-- The inner office loop: find the first matching office, stop there
(`break  # one matching office is enough`). -/
def scanOffices (target : List Char) : List Office → Option Office
  | [] => none
  | o :: rest =>
    if office_matches_postcode o target then some o else scanOffices target rest

/-- The organisation loop of `search_firms`: skip inactive organisations,
emit one record per organisation with a matching office. -/
def filterAndProject (target : List Char) : List Org → List SearchResult
  | [] => []
  | org :: rest =>
    if looks_active org then
      match scanOffices target (officesOf org) with
      | some o => projectOrg org o :: filterAndProject target rest
      | none => filterAndProject target rest
    else filterAndProject target rest

/-- The upstream payload: `data.get("value", []) or []`. -/
structure Payload where
  value : Option (List Org)
deriving DecidableEq

def valueOf (data : Payload) : List Org :=
  data.value.getD []

structure SearchResponse where
  count : Nat
  results : List SearchResult
deriving DecidableEq

/-- The `/search` handler, parameterised by the outcome of the upstream
fetch (which the source obtains from `call_sra_json("Organisations")`):
normalise, validate (422 on failure, before any upstream access), then
filter and project the payload. -/
def search_firms (postcode : String) (upstream : Except ApiError Payload) :
    Except ApiError SearchResponse :=
  let pc_clean := normalise_postcode postcode.data
  if ukpcMatch pc_clean then
    match upstream with
    | .error e => .error e
    | .ok data =>
      let results := filterAndProject pc_clean (valueOf data)
      .ok ⟨results.length, results⟩
  else .error (.http 422 "Please provide a valid UK postcode.")

/-! ### Concrete records used to instantiate theorems -/

def demoAddr1 : Address := ⟨some "SW1A 1AA", some "1 Main Street", some "London"⟩

def demoAddr2 : Address := ⟨some "SW1A 2BB", some "2 Side Street", some "London"⟩

def demoOffice1 : Office := ⟨some demoAddr1⟩

def demoOffice2 : Office := ⟨some demoAddr2⟩

/-- An active organisation with two offices whose outward codes both match
`SW1A`. -/
def demoOrg : Org :=
  ⟨some "123", some "Demo LLP", none, some "info@demo.example",
    some "020 0000 0000", some "Authorised", some [demoOffice1, demoOffice2]⟩

/-! ## Lemmas and claim theorems -/

/-! ### Character-level lemmas -/

theorem charEqOfToNat {c d : Char} (h : c.toNat = d.toNat) : c = d :=
  Char.eq_of_val_eq (UInt32.toNat.inj h)

theorem char_eq_iff_toNat {c d : Char} : c = d ↔ c.toNat = d.toNat :=
  ⟨fun h => h ▸ rfl, charEqOfToNat⟩

theorem isPySpace_iff {c : Char} :
    isPySpace c = true ↔
      c.toNat = 32 ∨ c.toNat = 9 ∨ c.toNat = 10 ∨ c.toNat = 13 ∨
      c.toNat = 11 ∨ c.toNat = 12 := by
  simp only [isPySpace, Bool.or_eq_true, decide_eq_true_eq, char_eq_iff_toNat,
    show (' ' : Char).toNat = 32 from rfl, show ('\t' : Char).toNat = 9 from rfl,
    show ('\n' : Char).toNat = 10 from rfl, show ('\r' : Char).toNat = 13 from rfl,
    show ('\x0b' : Char).toNat = 11 from rfl, show ('\x0c' : Char).toNat = 12 from rfl]
  tauto

theorem pyUpper_toNat_of_lower {c : Char} (h : 97 ≤ c.toNat ∧ c.toNat ≤ 122) :
    (pyUpper c).toNat = c.toNat - 32 := by
  have hv : (c.toNat - 32).isValidChar := Or.inl (by omega)
  have hle : ('a' ≤ c && c ≤ 'z') = true := by
    simp only [Bool.and_eq_true, decide_eq_true_eq]
    exact ⟨h.1, h.2⟩
  unfold pyUpper
  rw [if_pos hle]
  unfold Char.ofNat
  rw [dif_pos hv]
  rfl

theorem pyUpper_eq_self {c : Char} (h : ¬(97 ≤ c.toNat ∧ c.toNat ≤ 122)) :
    pyUpper c = c := by
  have hle : ¬(('a' ≤ c && c ≤ 'z') = true) := by
    simp only [Bool.and_eq_true, decide_eq_true_eq]
    intro hc
    exact h ⟨hc.1, hc.2⟩
  unfold pyUpper
  rw [if_neg hle]

theorem pyUpper_idem (c : Char) : pyUpper (pyUpper c) = pyUpper c := by
  by_cases h : 97 ≤ c.toNat ∧ c.toNat ≤ 122
  · have ht := pyUpper_toNat_of_lower h
    apply pyUpper_eq_self
    omega
  · rw [pyUpper_eq_self h, pyUpper_eq_self h]

theorem isPySpace_pyUpper (c : Char) : isPySpace (pyUpper c) = isPySpace c := by
  by_cases h : 97 ≤ c.toNat ∧ c.toNat ≤ 122
  · have ht := pyUpper_toNat_of_lower h
    have h1 : isPySpace (pyUpper c) = false := by
      rw [← Bool.not_eq_true, isPySpace_iff]
      omega
    have h2 : isPySpace c = false := by
      rw [← Bool.not_eq_true, isPySpace_iff]
      omega
    rw [h1, h2]
  · rw [pyUpper_eq_self h]

theorem collapseWS_mem (b : Bool) (l : List Char) :
    ∀ c ∈ collapseWS b l, c = ' ' ∨ (c ∈ l ∧ isPySpace c = false) := by
  induction l generalizing b with
  | nil =>
    intro c hc
    simp [collapseWS] at hc
  | cons a as ih =>
    intro c hc
    by_cases ha : isPySpace a = true
    · cases b with
      | true =>
        simp only [collapseWS, ha, if_true] at hc
        rcases ih true c hc with h | ⟨hm, hf⟩
        · exact Or.inl h
        · exact Or.inr ⟨List.mem_cons_of_mem a hm, hf⟩
      | false =>
        simp only [collapseWS, ha, if_true, Bool.false_eq_true, if_false] at hc
        rcases List.mem_cons.mp hc with h | h
        · exact Or.inl h
        · rcases ih true c h with h' | ⟨hm, hf⟩
          · exact Or.inl h'
          · exact Or.inr ⟨List.mem_cons_of_mem a hm, hf⟩
    · have ha' : isPySpace a = false := by
        rwa [← Bool.not_eq_true]
      simp only [collapseWS, ha', Bool.false_eq_true, if_false] at hc
      rcases List.mem_cons.mp hc with h | h
      · rw [h]
        exact Or.inr ⟨List.mem_cons_self a as, ha'⟩
      · rcases ih false c h with h' | ⟨hm, hf⟩
        · exact Or.inl h'
        · exact Or.inr ⟨List.mem_cons_of_mem a hm, hf⟩

theorem spacesBlank_collapseWS (b : Bool) (l : List Char) :
    SpacesBlank (collapseWS b l) := by
  intro c hc hs
  rcases collapseWS_mem b l c hc with h | ⟨_, hf⟩
  · exact h
  · rw [hf] at hs
    cases hs

theorem collapseWS_chain (l : List Char) :
    ∀ b : Bool, NoAdjSpace (collapseWS b l) ∧
      (b = true → HeadNotSpace (collapseWS b l)) := by
  induction l with
  | nil =>
    intro b
    refine ⟨List.chain'_nil, fun _ c hc => ?_⟩
    simp [collapseWS] at hc
  | cons a as ih =>
    intro b
    by_cases ha : isPySpace a = true
    · cases b with
      | true =>
        simp only [collapseWS, ha, if_true]
        exact ⟨(ih true).1, fun _ => (ih true).2 rfl⟩
      | false =>
        simp only [collapseWS, ha, if_true, Bool.false_eq_true, if_false]
        constructor
        · rw [NoAdjSpace, List.chain'_cons']
          refine ⟨fun c hc hcon => ?_, (ih true).1⟩
          have := (ih true).2 rfl c hc
          rw [this] at hcon
          exact absurd hcon.2 (by simp)
        · intro h
          cases h
    · have ha' : isPySpace a = false := by
        rwa [← Bool.not_eq_true]
      simp only [collapseWS, ha', Bool.false_eq_true, if_false]
      constructor
      · rw [NoAdjSpace, List.chain'_cons']
        refine ⟨fun c _ hcon => ?_, (ih false).1⟩
        rw [ha'] at hcon
        exact absurd hcon.1 (by simp)
      · intro _ c hc
        rw [List.head?_cons, Option.some_inj] at hc
        rw [← hc]
        exact ha'

theorem collapseWS_id (l : List Char) :
    ∀ b : Bool, SpacesBlank l → NoAdjSpace l →
      (b = true → HeadNotSpace l) → collapseWS b l = l := by
  induction l with
  | nil => intro b _ _ _; rfl
  | cons a as ih =>
    intro b hSB hNA hH
    by_cases ha : isPySpace a = true
    · have hab : a = ' ' := hSB a (List.mem_cons_self a as) ha
      have hb : b = false := by
        cases b with
        | false => rfl
        | true =>
          have := hH rfl a (List.head?_cons)
          rw [ha] at this
          cases this
      subst hb
      simp only [collapseWS, ha, if_true, Bool.false_eq_true, if_false]
      have htail : collapseWS true as = as := by
        apply ih true
        · exact fun c hc => hSB c (List.mem_cons_of_mem a hc)
        · exact ((List.chain'_cons'.mp hNA).2 : NoAdjSpace as)
        · intro _ c hc
          have hR := (List.chain'_cons'.mp hNA).1 c hc
          rw [← Bool.not_eq_true]
          intro hc'
          exact hR ⟨ha, hc'⟩
      rw [htail, hab]
    · have ha' : isPySpace a = false := by
        rwa [← Bool.not_eq_true]
      simp only [collapseWS, ha', Bool.false_eq_true, if_false]
      have htail : collapseWS false as = as := by
        apply ih false
        · exact fun c hc => hSB c (List.mem_cons_of_mem a hc)
        · exact ((List.chain'_cons'.mp hNA).2 : NoAdjSpace as)
        · intro h
          cases h
      rw [htail]

/-! ### Trim lemmas -/

theorem headNotSpace_dropWhile (l : List Char) :
    HeadNotSpace (l.dropWhile isPySpace) := by
  induction l with
  | nil => intro c hc; cases hc
  | cons a as ih =>
    by_cases h : isPySpace a = true
    · rw [List.dropWhile_cons, if_pos h]
      exact ih
    · have h' : isPySpace a = false := by rwa [← Bool.not_eq_true]
      rw [List.dropWhile_cons, if_neg (by rw [h']; exact Bool.false_ne_true)]
      intro c hc
      rw [List.head?_cons, Option.some_inj] at hc
      rw [← hc]
      exact h'

theorem dropWhile_eq_self_of_head (l : List Char) (h : HeadNotSpace l) :
    l.dropWhile isPySpace = l := by
  cases l with
  | nil => rfl
  | cons a as =>
    have := h a (List.head?_cons)
    rw [List.dropWhile_cons, if_neg (by rw [this]; exact Bool.false_ne_true)]

theorem trimWS_id (l : List Char) (h1 : HeadNotSpace l)
    (h2 : HeadNotSpace l.reverse) : trimWS l = l := by
  unfold trimWS
  rw [dropWhile_eq_self_of_head l h1, dropWhile_eq_self_of_head l.reverse h2,
    List.reverse_reverse]

theorem trimWS_within (l : List Char) : trimWS l <:+: l := by
  have h1 : l.dropWhile isPySpace <:+ l := List.dropWhile_suffix _
  have h2 : (l.dropWhile isPySpace).reverse.dropWhile isPySpace <:+
      (l.dropWhile isPySpace).reverse := List.dropWhile_suffix _
  have h3 : ((l.dropWhile isPySpace).reverse.dropWhile isPySpace).reverse <+:
      (l.dropWhile isPySpace) := by
    rw [← List.reverse_suffix]
    rw [List.reverse_reverse]
    exact h2
  exact ( List.IsPrefix.isInfix h3).trans ( List.IsSuffix.isInfix h1)

theorem headNotSpace_of_prefix {l m : List Char} (h : m <+: l)
    (hl : HeadNotSpace l) : HeadNotSpace m := by
  intro c hc
  obtain ⟨t, ht⟩ := h
  cases m with
  | nil => cases hc
  | cons a as =>
    rw [List.head?_cons, Option.some_inj] at hc
    subst hc
    apply hl
    rw [← ht]
    rfl

theorem trimWS_headNotSpace (l : List Char) : HeadNotSpace (trimWS l) := by
  unfold trimWS
  have h3 : ((l.dropWhile isPySpace).reverse.dropWhile isPySpace).reverse <+:
      (l.dropWhile isPySpace) := by
    rw [← List.reverse_suffix, List.reverse_reverse]
    exact List.dropWhile_suffix _
  exact headNotSpace_of_prefix h3 (headNotSpace_dropWhile l)

theorem trimWS_lastNotSpace (l : List Char) : HeadNotSpace (trimWS l).reverse := by
  unfold trimWS
  rw [List.reverse_reverse]
  exact headNotSpace_dropWhile _

/-! ### Idempotence of normalisation (C6 machinery) -/

theorem map_pyUpper_id {l : List Char} (h : AllUpper l) : l.map pyUpper = l := by
  induction l with
  | nil => rfl
  | cons a as ih =>
    rw [List.map_cons, h a (List.mem_cons_self a as),
      ih fun c hc => h c (List.mem_cons_of_mem a hc)]

theorem allUpper_collapse_map (x : List Char) (b : Bool) :
    AllUpper (collapseWS b (x.map pyUpper)) := by
  intro c hc
  rcases collapseWS_mem b (x.map pyUpper) c hc with h | ⟨hm, _⟩
  · rw [h]
    decide
  · obtain ⟨a, _, rfl⟩ := List.mem_map.mp hm
    exact pyUpper_idem a

/-- Core fact behind C6: `normalise_postcode` is idempotent. -/
theorem normalise_postcode_idem (x : List Char) :
    normalise_postcode (normalise_postcode x) = normalise_postcode x := by
  have hpart : trimWS (collapseWS false (x.map pyUpper)) <:+:
      collapseWS false (x.map pyUpper) := trimWS_within _
  have hSB : SpacesBlank (normalise_postcode x) := fun c hc =>
    spacesBlank_collapseWS false (x.map pyUpper) c (hpart.subset hc)
  have hNA : NoAdjSpace (normalise_postcode x) :=
    List.Chain'.infix ((collapseWS_chain (x.map pyUpper) false).1) hpart
  have hAU : AllUpper (normalise_postcode x) := fun c hc =>
    allUpper_collapse_map x false c (hpart.subset hc)
  have hH : HeadNotSpace (normalise_postcode x) := trimWS_headNotSpace _
  have hL : HeadNotSpace (normalise_postcode x).reverse := trimWS_lastNotSpace _
  show trimWS (collapseWS false ((normalise_postcode x).map pyUpper)) =
    normalise_postcode x
  rw [map_pyUpper_id hAU,
    collapseWS_id (normalise_postcode x) false hSB hNA (fun h => nomatch h),
    trimWS_id (normalise_postcode x) hH hL]

theorem outwardMatch_shape {ow : List Char} (h : outwardMatch ow = true) :
    (∃ a b, ow = [a, b]) ∨ (∃ a b c, ow = [a, b, c]) ∨
      (∃ a b c d, ow = [a, b, c, d]) := by
  match ow with
  | [] => simp [outwardMatch] at h
  | [a] => simp [outwardMatch] at h
  | [a, b] => exact Or.inl ⟨a, b, rfl⟩
  | [a, b, c] => exact Or.inr (Or.inl ⟨a, b, c, rfl⟩)
  | [a, b, c, d] => exact Or.inr (Or.inr ⟨a, b, c, d, rfl⟩)
  | a :: b :: c :: d :: e :: rest => simp [outwardMatch] at h

theorem coreMatch_of_coreSpec {t : List Char} (h : CoreSpec t) :
    coreMatch t = true := by
  rcases h with ⟨g, i, r, m, z, a1, a2, rfl, hm, h1, h2, h3, h4, h5, h6⟩ |
    ⟨ow, m, d, u1, u2, rfl, how, hm, hinw⟩
  · rcases hm with rfl | ⟨w, hw, rfl⟩
    · simp [coreMatch, girMatch, h1, h2, h3, h4, h5, h6]
    · simp [coreMatch, girMatch, h1, h2, h3, h4, h5, h6, hw]
  · rcases outwardMatch_shape how with ⟨a, b, rfl⟩ | ⟨a, b, c, rfl⟩ |
      ⟨a, b, c, d', rfl⟩ <;>
      rcases hm with rfl | ⟨w, hw, rfl⟩
    · simp [coreMatch, how, hinw]
    · simp [coreMatch, how, hw, hinw]
    · simp [coreMatch, how, hinw]
    · simp [coreMatch, how, hw, hinw]
    · simp [coreMatch, how, hinw]
    · simp [coreMatch, how, hw, hinw]

theorem coreSpec_of_coreMatch {t : List Char} (h : coreMatch t = true) :
    CoreSpec t := by
  match t with
  | [] => simp [coreMatch, girMatch] at h
  | [a] => simp [coreMatch, girMatch] at h
  | [a, b] => simp [coreMatch, girMatch] at h
  | [a, b, c] => simp [coreMatch, girMatch] at h
  | [a, b, c, d] => simp [coreMatch, girMatch] at h
  | [a, b, c, d, e] =>
    simp only [coreMatch, girMatch, Bool.false_or, Bool.and_eq_true] at h
    exact Or.inr ⟨[a, b], [], c, d, e, rfl, h.1, Or.inl rfl, h.2⟩
  | [a, b, c, d, e, f] =>
    simp only [coreMatch, girMatch, Bool.or_eq_true, Bool.and_eq_true,
      decide_eq_true_eq, and_assoc] at h
    rcases h with ⟨h1, h2, h3, h4, h5, h6⟩ | ⟨how, hinw⟩ | ⟨how, hsp, hinw⟩
    · exact Or.inl ⟨a, b, c, [], d, e, f, rfl, Or.inl rfl, h1, h2, h3, h4,
        h5, h6⟩
    · exact Or.inr ⟨[a, b, c], [], d, e, f, rfl, how, Or.inl rfl, hinw⟩
    · exact Or.inr ⟨[a, b], [c], d, e, f, rfl, how, Or.inr ⟨c, hsp, rfl⟩, hinw⟩
  | [a, b, c, d, e, f, g] =>
    simp only [coreMatch, girMatch, Bool.or_eq_true, Bool.and_eq_true,
      decide_eq_true_eq, and_assoc] at h
    rcases h with ⟨h1, h2, h3, hs, h4, h5, h6⟩ | ⟨how, hinw⟩ | ⟨how, hsp, hinw⟩
    · exact Or.inl ⟨a, b, c, [d], e, f, g, rfl, Or.inr ⟨d, hs, rfl⟩, h1, h2,
        h3, h4, h5, h6⟩
    · exact Or.inr ⟨[a, b, c, d], [], e, f, g, rfl, how, Or.inl rfl, hinw⟩
    · exact Or.inr ⟨[a, b, c], [d], e, f, g, rfl, how, Or.inr ⟨d, hsp, rfl⟩,
        hinw⟩
  | [a, b, c, d, e, f, g, h'] =>
    simp only [coreMatch, girMatch, Bool.or_eq_true, Bool.and_eq_true,
      decide_eq_true_eq, Bool.false_or, and_assoc] at h
    rcases h with ⟨how, hsp, hinw⟩
    exact Or.inr ⟨[a, b, c, d], [e], f, g, h', rfl, how,
      Or.inr ⟨e, hsp, rfl⟩, hinw⟩
  | a :: b :: c :: d :: e :: f :: g :: h' :: i :: rest =>
    simp [coreMatch, girMatch] at h

theorem coreMatch_iff {t : List Char} : coreMatch t = true ↔ CoreSpec t :=
  ⟨coreSpec_of_coreMatch, coreMatch_of_coreSpec⟩

/-! ### Case-insensitivity of the validation pattern -/

theorem isAreaL_pyUpper (c : Char) : isAreaL (pyUpper c) = isAreaL c := by
  simp [isAreaL, pyUpper_idem]

theorem isSecondL_pyUpper (c : Char) : isSecondL (pyUpper c) = isSecondL c := by
  simp [isSecondL, pyUpper_idem]

theorem isThirdOpt_pyUpper (c : Char) : isThirdOpt (pyUpper c) = isThirdOpt c := by
  simp [isThirdOpt, pyUpper_idem]

theorem isFourthOpt_pyUpper (c : Char) :
    isFourthOpt (pyUpper c) = isFourthOpt c := by
  simp [isFourthOpt, pyUpper_idem]

theorem isUnitL_pyUpper (c : Char) : isUnitL (pyUpper c) = isUnitL c := by
  simp [isUnitL, pyUpper_idem]

theorem char_le_iff_toNat {c d : Char} : c ≤ d ↔ c.toNat ≤ d.toNat :=
  ⟨fun h => h, fun h => h⟩

theorem isDigitC_pyUpper (c : Char) : isDigitC (pyUpper c) = isDigitC c := by
  by_cases h : 97 ≤ c.toNat ∧ c.toNat ≤ 122
  · have ht := pyUpper_toNat_of_lower h
    have h1 : isDigitC (pyUpper c) = false := by
      rw [← Bool.not_eq_true]
      simp only [isDigitC, Bool.and_eq_true, decide_eq_true_eq,
        char_le_iff_toNat, show ('0' : Char).toNat = 48 from rfl,
        show ('9' : Char).toNat = 57 from rfl]
      omega
    have h2 : isDigitC c = false := by
      rw [← Bool.not_eq_true]
      simp only [isDigitC, Bool.and_eq_true, decide_eq_true_eq,
        char_le_iff_toNat, show ('0' : Char).toNat = 48 from rfl,
        show ('9' : Char).toNat = 57 from rfl]
      omega
    rw [h1, h2]
  · rw [pyUpper_eq_self h]

theorem pyUpper_eq_zeroChar (c : Char) : pyUpper c = '0' ↔ c = '0' := by
  by_cases h : 97 ≤ c.toNat ∧ c.toNat ≤ 122
  · have ht := pyUpper_toNat_of_lower h
    constructor
    · intro hc
      rw [char_eq_iff_toNat, show ('0' : Char).toNat = 48 from rfl] at hc
      omega
    · intro hc
      rw [char_eq_iff_toNat, show ('0' : Char).toNat = 48 from rfl] at hc
      exact absurd hc (by omega)
  · rw [pyUpper_eq_self h]

theorem trimWS_map_pyUpper (s : List Char) :
    trimWS (s.map pyUpper) = (trimWS s).map pyUpper := by
  have hp : (isPySpace ∘ pyUpper) = isPySpace := funext isPySpace_pyUpper
  unfold trimWS
  rw [List.dropWhile_map, hp, ← List.map_reverse, List.dropWhile_map, hp,
    ← List.map_reverse]

theorem coreMatch_map_pyUpper (t : List Char) :
    coreMatch (t.map pyUpper) = coreMatch t := by
  match t with
  | [] => rfl
  | [a] => simp [coreMatch, girMatch]
  | [a, b] => simp [coreMatch, girMatch]
  | [a, b, c] => simp [coreMatch, girMatch]
  | [a, b, c, d] => simp [coreMatch, girMatch]
  | [a, b, c, d, e] =>
    simp [coreMatch, girMatch, outwardMatch, inwardMatch, isAreaL_pyUpper,
      isDigitC_pyUpper, isUnitL_pyUpper]
  | [a, b, c, d, e, f] =>
    simp [coreMatch, girMatch, outwardMatch, inwardMatch, isAreaL_pyUpper,
      isSecondL_pyUpper, isThirdOpt_pyUpper, isDigitC_pyUpper, isUnitL_pyUpper,
      isPySpace_pyUpper, pyUpper_idem, pyUpper_eq_zeroChar]
  | [a, b, c, d, e, f, g] =>
    simp [coreMatch, girMatch, outwardMatch, inwardMatch, isAreaL_pyUpper,
      isSecondL_pyUpper, isThirdOpt_pyUpper, isFourthOpt_pyUpper,
      isDigitC_pyUpper, isUnitL_pyUpper, isPySpace_pyUpper, pyUpper_idem,
      pyUpper_eq_zeroChar]
  | [a, b, c, d, e, f, g, h'] =>
    simp [coreMatch, girMatch, outwardMatch, inwardMatch, isAreaL_pyUpper,
      isSecondL_pyUpper, isFourthOpt_pyUpper, isDigitC_pyUpper,
      isUnitL_pyUpper, isPySpace_pyUpper]
  | a :: b :: c :: d :: e :: f :: g :: h' :: i :: rest =>
    simp [coreMatch, girMatch]

/-- The matcher is insensitive to upper-casing its input. -/
theorem ukpcMatch_map_pyUpper (s : List Char) :
    ukpcMatch (s.map pyUpper) = ukpcMatch s := by
  unfold ukpcMatch
  rw [trimWS_map_pyUpper, coreMatch_map_pyUpper]

/-! ### Substring characterisation -/

theorem isPrefixList_iff {needle hay : List Char} :
    isPrefixList needle hay = true ↔ ∃ t, hay = needle ++ t := by
  induction needle generalizing hay with
  | nil =>
    simp [isPrefixList]
  | cons a as ih =>
    cases hay with
    | nil =>
      simp [isPrefixList]
    | cons b bs =>
      simp only [isPrefixList, Bool.and_eq_true, decide_eq_true_eq, ih,
        List.cons_append, List.cons.injEq]
      constructor
      · rintro ⟨rfl, t, rfl⟩
        exact ⟨t, rfl, rfl⟩
      · rintro ⟨t, rfl, rfl⟩
        exact ⟨rfl, t, rfl⟩

theorem containsSub_iff {needle hay : List Char} :
    containsSub needle hay = true ↔ ∃ pre post, hay = pre ++ needle ++ post := by
  induction hay with
  | nil =>
    simp only [containsSub, List.isEmpty_iff]
    constructor
    · rintro rfl
      exact ⟨[], [], rfl⟩
    · rintro ⟨pre, post, h⟩
      rcases List.append_eq_nil.mp (List.append_eq_nil.mp h.symm).1 with ⟨-, h2⟩
      exact h2
  | cons c rest ih =>
    simp only [containsSub, Bool.or_eq_true, isPrefixList_iff, ih]
    constructor
    · rintro (⟨t, ht⟩ | ⟨pre, post, rfl⟩)
      · exact ⟨[], t, by simpa using ht⟩
      · exact ⟨c :: pre, post, rfl⟩
    · rintro ⟨pre, post, h⟩
      cases pre with
      | nil =>
        exact Or.inl ⟨post, by simpa using h⟩
      | cons p ps =>
        rw [List.cons_append, List.cons_append, List.cons.injEq] at h
        exact Or.inr ⟨ps, post, h.2⟩

theorem containsSub_singleton {w : Char} {l : List Char} :
    containsSub [w] l = true ↔ w ∈ l := by
  rw [containsSub_iff]
  constructor
  · rintro ⟨pre, post, rfl⟩
    simp
  · intro h
    obtain ⟨s, t, rfl⟩ := List.mem_iff_append.mp h
    exact ⟨s, t, by simp⟩

/-! ### `outward_code` helper lemmas -/

theorem takeWhile_before_space {a b : List Char} (h : ∀ c ∈ a, c ≠ ' ') :
    (a ++ ' ' :: b).takeWhile (fun c => c != ' ') = a := by
  induction a with
  | nil => simp [List.takeWhile_cons]
  | cons x xs ih =>
    have hx : x ≠ ' ' := h x (List.mem_cons_self x xs)
    rw [List.cons_append, List.takeWhile_cons, if_pos (by simpa using hx),
      ih fun c hc => h c (List.mem_cons_of_mem x hc)]

/-! ### `scanOffices` lemmas -/

theorem scanOffices_eq_none {target : List Char} {offices : List Office}
    (h : ∀ o ∈ offices, office_matches_postcode o target = false) :
    scanOffices target offices = none := by
  induction offices with
  | nil => rfl
  | cons o rest ih =>
    rw [scanOffices,
      if_neg (by rw [h o (List.mem_cons_self o rest)]; exact Bool.false_ne_true),
      ih fun o' ho' => h o' (List.mem_cons_of_mem o ho')]

theorem scanOffices_first {target : List Char} {pre post : List Office}
    {o : Office} (hpre : ∀ o' ∈ pre, office_matches_postcode o' target = false)
    (ho : office_matches_postcode o target = true) :
    scanOffices target (pre ++ o :: post) = some o := by
  induction pre with
  | nil => simp [scanOffices, ho]
  | cons p ps ih =>
    rw [List.cons_append, scanOffices,
      if_neg (by rw [hpre p (List.mem_cons_self p ps)]; exact Bool.false_ne_true),
      ih fun o' ho' => hpre o' (List.mem_cons_of_mem p ho')]

/-! ### `filterAndProject` lemmas -/

theorem filterAndProject_append (target : List Char) (l1 l2 : List Org) :
    filterAndProject target (l1 ++ l2) =
      filterAndProject target l1 ++ filterAndProject target l2 := by
  induction l1 with
  | nil => rfl
  | cons org rest ih =>
    rw [List.cons_append, filterAndProject, filterAndProject]
    by_cases h : looks_active org = true
    · rw [if_pos h, if_pos h]
      cases scanOffices target (officesOf org) with
      | none => exact ih
      | some o => rw [ih]; rfl
    · rw [if_neg h, if_neg h]
      exact ih

theorem filterAndProject_inactive {target : List Char} {org : Org}
    (h : looks_active org = false) (rest : List Org) :
    filterAndProject target (org :: rest) = filterAndProject target rest := by
  rw [filterAndProject, if_neg (by rw [h]; exact Bool.false_ne_true)]

theorem filterAndProject_noMatch {target : List Char} {org : Org}
    (h : ∀ o ∈ officesOf org, office_matches_postcode o target = false)
    (rest : List Org) :
    filterAndProject target (org :: rest) = filterAndProject target rest := by
  rw [filterAndProject]
  by_cases ha : looks_active org = true
  · rw [if_pos ha, scanOffices_eq_none h]
  · rw [if_neg ha]

theorem filterAndProject_firstMatch {target : List Char} {org : Org}
    {pre post : List Office} {o : Office} (ha : looks_active org = true)
    (hoff : officesOf org = pre ++ o :: post)
    (hpre : ∀ o' ∈ pre, office_matches_postcode o' target = false)
    (ho : office_matches_postcode o target = true) (rest : List Org) :
    filterAndProject target (org :: rest) =
      projectOrg org o :: filterAndProject target rest := by
  rw [filterAndProject, if_pos ha, hoff, scanOffices_first hpre ho]

theorem filterAndProject_length (target : List Char) (orgs : List Org) :
    (filterAndProject target orgs).length ≤ orgs.length := by
  induction orgs with
  | nil => exact Nat.le_refl 0
  | cons org rest ih =>
    rw [filterAndProject]
    by_cases h : looks_active org = true
    · rw [if_pos h]
      cases scanOffices target (officesOf org) with
      | none => exact Nat.le_succ_of_le ih
      | some o => simpa using Nat.succ_le_succ ih
    · rw [if_neg h]
      exact Nat.le_succ_of_le ih

/-! ### `callLoop` lemmas -/

theorem callLoop_first_success {α : Type} {pre : List (String × HostOutcome α)}
    (hpre : ∀ p ∈ pre, p.2.isFailure = true) (le : Option String)
    (base : String) (j : α) (post : List (String × HostOutcome α)) :
    callLoop le (pre ++ (base, .success j) :: post) = .ok j := by
  induction pre generalizing le with
  | nil => rfl
  | cons p ps ih =>
    obtain ⟨b, out⟩ := p
    have hfail := hpre (b, out) (List.mem_cons_self _ _)
    cases out with
    | success _ => exact absurd hfail (by simp [HostOutcome.isFailure])
    | httpError d =>
      rw [List.cons_append, callLoop]
      exact ih (fun q hq => hpre q (List.mem_cons_of_mem _ hq)) _
    | sslError m =>
      rw [List.cons_append, callLoop]
      exact ih (fun q hq => hpre q (List.mem_cons_of_mem _ hq)) _
    | reqError m =>
      rw [List.cons_append, callLoop]
      exact ih (fun q hq => hpre q (List.mem_cons_of_mem _ hq)) _

theorem callLoop_all_fail {α : Type} (attempts : List (String × HostOutcome α))
    (hne : attempts ≠ []) (hfail : ∀ p ∈ attempts, p.2.isFailure = true)
    (le : Option String) :
    callLoop le attempts = .error (.http 502 ("SRA API network error: " ++
      renderLastError
        (outcomeMsg (attempts.getLast hne).1 (attempts.getLast hne).2))) := by
  induction attempts generalizing le with
  | nil => exact absurd rfl hne
  | cons p ps ih =>
    obtain ⟨b, out⟩ := p
    have hf := hfail (b, out) (List.mem_cons_self _ _)
    cases ps with
    | nil =>
      cases out with
      | success _ => exact absurd hf (by simp [HostOutcome.isFailure])
      | httpError d => rfl
      | sslError m => rfl
      | reqError m => rfl
    | cons q qs =>
      have hne' : q :: qs ≠ [] := List.cons_ne_nil q qs
      have hrec := ih hne' (fun r hr => hfail r (List.mem_cons_of_mem _ hr))
      have hlast : ((b, out) :: q :: qs).getLast hne = (q :: qs).getLast hne' :=
        List.getLast_cons hne'
      cases out with
      | success _ => exact absurd hf (by simp [HostOutcome.isFailure])
      | httpError d => rw [callLoop, hlast]; exact hrec _
      | sslError m => rw [callLoop, hlast]; exact hrec _
      | reqError m => rw [callLoop, hlast]; exact hrec _

theorem callLoop_ok_mem {α : Type} {attempts : List (String × HostOutcome α)}
    {le : Option String} {j : α} (h : callLoop le attempts = .ok j) :
    ∃ base, (base, HostOutcome.success j) ∈ attempts := by
  induction attempts generalizing le with
  | nil => cases h
  | cons p ps ih =>
    obtain ⟨b, out⟩ := p
    cases out with
    | success j' =>
      rw [callLoop] at h
      cases h
      exact ⟨b, List.mem_cons_self _ _⟩
    | httpError d =>
      rw [callLoop] at h
      obtain ⟨base, hb⟩ := ih h
      exact ⟨base, List.mem_cons_of_mem _ hb⟩
    | sslError m =>
      rw [callLoop] at h
      obtain ⟨base, hb⟩ := ih h
      exact ⟨base, List.mem_cons_of_mem _ hb⟩
    | reqError m =>
      rw [callLoop] at h
      obtain ⟨base, hb⟩ := ih h
      exact ⟨base, List.mem_cons_of_mem _ hb⟩

/-! ## Claim theorems -/

/-- C1: `filterAndProject` emits at most one result per organisation:
output is compositional in the input order, bounded by one record per
organisation, inactive organisations and organisations with no matching
office contribute nothing, an active organisation whose first matching
office is `o` contributes exactly `projectOrg org o` (later offices are not
consulted), and the emitted email is the primary field with Python-truthy
fallback to the general-email field. -/
theorem claim_C1_filterAndProject :
    (∀ (t : List Char) (l1 l2 : List Org),
      filterAndProject t (l1 ++ l2) =
        filterAndProject t l1 ++ filterAndProject t l2) ∧
    (∀ (t : List Char) (orgs : List Org),
      (filterAndProject t orgs).length ≤ orgs.length) ∧
    (∀ (t : List Char) (org : Org) (rest : List Org),
      looks_active org = false →
      filterAndProject t (org :: rest) = filterAndProject t rest) ∧
    (∀ (t : List Char) (org : Org) (rest : List Org),
      (∀ o ∈ officesOf org, office_matches_postcode o t = false) →
      filterAndProject t (org :: rest) = filterAndProject t rest) ∧
    (∀ (t : List Char) (org : Org) (pre post : List Office) (o : Office)
      (rest : List Org), looks_active org = true →
      officesOf org = pre ++ o :: post →
      (∀ p ∈ pre, office_matches_postcode p t = false) →
      office_matches_postcode o t = true →
      filterAndProject t (org :: rest) =
        projectOrg org o :: filterAndProject t rest) ∧
    (∀ (org : Org) (o : Office),
      (projectOrg org o).email = pyOrStr org.email org.generalEmail) :=
  ⟨filterAndProject_append, filterAndProject_length,
    fun t org rest h => filterAndProject_inactive h rest,
    fun t org rest h => filterAndProject_noMatch h rest,
    fun t org pre post o rest ha hoff hpre ho =>
      filterAndProject_firstMatch ha hoff hpre ho rest,
    fun org o => rfl⟩

/-- C1 witness: an active organisation whose two offices both match the
target outward code contributes exactly one record, built from the first
office. -/
theorem claim_C1_witness :
    filterAndProject "SW1A 9ZZ".data (demoOrg :: []) =
      projectOrg demoOrg demoOffice1 :: filterAndProject "SW1A 9ZZ".data [] :=
  claim_C1_filterAndProject.2.2.2.2.1 "SW1A 9ZZ".data demoOrg []
    [demoOffice2] demoOffice1 [] (by decide) (by decide) (by decide) (by decide)

/-- C2: `call_sra_json` returns the first host's successful JSON regardless
of the outcomes of later hosts; if every host fails it raises the 502
`HTTPException` built from the last recorded failure message; and a
successful return always is the JSON of one of the attempted hosts (never a
partial result). -/
theorem claim_C2_call_sra_json :
    (∀ (α : Type) (pre : List (String × HostOutcome α)) (base : String)
      (j : α) (post : List (String × HostOutcome α)),
      (∀ p ∈ pre, p.2.isFailure = true) →
      call_sra_json (pre ++ (base, HostOutcome.success j) :: post) = .ok j) ∧
    (∀ (α : Type) (attempts : List (String × HostOutcome α))
      (hne : attempts ≠ []), (∀ p ∈ attempts, p.2.isFailure = true) →
      call_sra_json attempts = .error (.http 502
        ("SRA API network error: " ++ renderLastError
          (outcomeMsg (attempts.getLast hne).1 (attempts.getLast hne).2)))) ∧
    (∀ (α : Type) (attempts : List (String × HostOutcome α)) (j : α),
      call_sra_json attempts = .ok j →
      ∃ base, (base, HostOutcome.success j) ∈ attempts) :=
  ⟨fun α pre base j post hpre => callLoop_first_success hpre none base j post,
    fun α attempts hne hfail => callLoop_all_fail attempts hne hfail none,
    fun α attempts j h => callLoop_ok_mem h⟩

/-- C2 witness: with a failing first host and successful second and third
hosts, the second host's JSON is returned. -/
theorem claim_C2_witness :
    call_sra_json [("https://first.example", HostOutcome.httpError "401"),
      ("https://second.example", HostOutcome.success (5 : Nat)),
      ("https://third.example", HostOutcome.success (7 : Nat))] = .ok 5 :=
  claim_C2_call_sra_json.1 Nat
    [("https://first.example", HostOutcome.httpError "401")]
    "https://second.example" 5
    [("https://third.example", HostOutcome.success 7)] (by decide)

/-- C3 counterexample: the normalised form of "SW1A1AA" contains no space,
yet the validation pattern accepts it — the space before the inward part is
optional (`\s?`), not mandatory. -/
theorem claim_C3_counterexample :
    containsSub [' '] (normalise_postcode "SW1A1AA".data) = false ∧
    ukpcMatch (normalise_postcode "SW1A1AA".data) = true := by
  decide

/-- C3 (amended): the matcher accepts exactly the strings whose trimmed
form satisfies the UK postcode grammar with an optional single whitespace
between the outward part and the sector-digit-plus-two-unit-letters part
(plus the special-cased `GIR`-form), it is insensitive to upper-casing, and
in particular the unspaced "SW1A1AA" passes validation. -/
theorem claim_C3_ukpc_grammar :
    (∀ s : List Char, ukpcMatch s = true ↔ CoreSpec (trimWS s)) ∧
    (∀ s : List Char, ukpcMatch (s.map pyUpper) = ukpcMatch s) ∧
    ukpcMatch "SW1A1AA".data = true :=
  ⟨fun s => coreMatch_iff, ukpcMatch_map_pyUpper, by decide⟩

/-- C4: `outward_code` normalises, returns the part before the first space
when one is present, otherwise strips the last three characters when the
length exceeds 3, otherwise returns the string unchanged; in particular
`outward_code "SW1A 1AA" = "SW1A"` and `outward_code "sw1a1aa" = "SW1A"`. -/
theorem claim_C4_outward_code :
    (∀ (s a b : List Char), normalise_postcode s = a ++ ' ' :: b →
      (∀ c ∈ a, c ≠ ' ') → outward_code s = a) ∧
    (∀ s : List Char, ' ' ∉ normalise_postcode s →
      3 < (normalise_postcode s).length →
      outward_code s = (normalise_postcode s).take
        ((normalise_postcode s).length - 3)) ∧
    (∀ s : List Char, ' ' ∉ normalise_postcode s →
      (normalise_postcode s).length ≤ 3 →
      outward_code s = normalise_postcode s) ∧
    outward_code "SW1A 1AA".data = "SW1A".data ∧
    outward_code "sw1a1aa".data = "SW1A".data := by
  refine ⟨?_, ?_, ?_, by decide, by decide⟩
  · intro s a b hn ha
    have hmem : containsSub [' '] (normalise_postcode s) = true := by
      rw [containsSub_singleton, hn]
      simp
    rw [outward_code, hn]
    rw [← hn, hmem]
    rw [hn]
    simp only [if_true]
    exact takeWhile_before_space ha
  · intro s hsp hlen
    have hmem : containsSub [' '] (normalise_postcode s) = false := by
      rw [← Bool.not_eq_true, containsSub_singleton]
      exact hsp
    rw [outward_code, hmem]
    simp only [Bool.false_eq_true, if_false]
    rw [if_pos hlen]
  · intro s hsp hlen
    have hmem : containsSub [' '] (normalise_postcode s) = false := by
      rw [← Bool.not_eq_true, containsSub_singleton]
      exact hsp
    rw [outward_code, hmem]
    simp only [Bool.false_eq_true, if_false]
    rw [if_neg (by omega)]

/-- C4 witness: the first-space rule applied at "SW1A 1AA", the
all-but-last-3 rule applied at "sw1a1aa". -/
theorem claim_C4_witness :
    outward_code "SW1A 1AA".data = "SW1A".data ∧
    outward_code "sw1a1aa".data = (normalise_postcode "sw1a1aa".data).take
      ((normalise_postcode "sw1a1aa".data).length - 3) :=
  ⟨claim_C4_outward_code.1 "SW1A 1AA".data "SW1A".data "1AA".data (by decide)
      (by decide),
    claim_C4_outward_code.2.1 "sw1a1aa".data (by decide) (by decide)⟩

/-- C5: `looks_active` holds exactly when one of the four keywords occurs
as a substring of the lower-cased, trimmed authorisation status; it accepts
"Authorised", "  registered  " and "Recognised Body" and rejects "Revoked",
"" and an absent status. -/
theorem claim_C5_looks_active :
    (∀ org : Org, looks_active org = true ↔
      ∃ w ∈ activeKeywords, ∃ pre post, statusNorm org = pre ++ w ++ post) ∧
    looks_active (orgWithStatus (some "Authorised")) = true ∧
    looks_active (orgWithStatus (some "  registered  ")) = true ∧
    looks_active (orgWithStatus (some "Recognised Body")) = true ∧
    looks_active (orgWithStatus (some "Revoked")) = false ∧
    looks_active (orgWithStatus (some "")) = false ∧
    looks_active (orgWithStatus none) = false := by
  refine ⟨?_, by decide, by decide, by decide, by decide, by decide, by decide⟩
  intro org
  simp only [looks_active, List.any_eq_true, containsSub_iff]

/-- C7: `office_matches_postcode` is false (and total) when the address
record is missing or its postcode is empty or absent, and otherwise decides
equality of outward codes; a malformed office (or a missing offices list)
merely excludes the organisation from the results. -/
theorem claim_C7_office_matches :
    (∀ (office : Office) (t : List Char), office.address = none →
      office_matches_postcode office t = false) ∧
    (∀ (office : Office) (t : List Char) (a : Address),
      office.address = some a → (a.postCode = none ∨ a.postCode = some "") →
      office_matches_postcode office t = false) ∧
    (∀ (office : Office) (t : List Char) (a : Address) (pc : String),
      office.address = some a → a.postCode = some pc → pc ≠ "" →
      (office_matches_postcode office t = true ↔
        outward_code pc.data = outward_code t)) ∧
    (∀ (t : List Char) (org : Org) (rest : List Org),
      (∀ o ∈ officesOf org, (addrOf o).postCode.getD "" = "") →
      filterAndProject t (org :: rest) = filterAndProject t rest) ∧
    (∀ (t : List Char) (org : Org) (rest : List Org), org.offices = none →
      filterAndProject t (org :: rest) = filterAndProject t rest) := by
  refine ⟨?_, ?_, ?_, ?_, ?_⟩
  · intro office t h
    simp [office_matches_postcode, addrOf, h, emptyAddress]
  · intro office t a h hpc
    rcases hpc with hpc | hpc <;>
      simp [office_matches_postcode, addrOf, h, hpc]
  · intro office t a pc h hpc hne
    simp [office_matches_postcode, addrOf, h, hpc, hne]
  · intro t org rest h
    refine filterAndProject_noMatch (fun o ho => ?_) rest
    have hpc := h o ho
    simp [office_matches_postcode, hpc]
  · intro t org rest h
    refine filterAndProject_noMatch (fun o ho => ?_) rest
    rw [officesOf, h] at ho
    cases ho

/-- C7 witness: an office with no address record never matches. -/
theorem claim_C7_witness :
    office_matches_postcode ⟨none⟩ "SW1A 1AA".data = false :=
  claim_C7_office_matches.1 ⟨none⟩ "SW1A 1AA".data rfl

/-- C8: the validator accepts the six listed well-formed postcodes and
rejects the three listed malformed strings. -/
theorem claim_C8_examples :
    ukpcMatch "SW1A 1AA".data = true ∧ ukpcMatch "GIR 0AA".data = true ∧
    ukpcMatch "M1 1AE".data = true ∧ ukpcMatch "B33 8TH".data = true ∧
    ukpcMatch "CR2 6XH".data = true ∧ ukpcMatch "DN55 1PT".data = true ∧
    ukpcMatch "12345".data = false ∧ ukpcMatch "".data = false ∧
    ukpcMatch "ABCDEF".data = false := by
  decide

/-- C9: when the normalised postcode fails validation, `/search` answers
the 422 client error with the fixed human-readable message, for every
possible upstream outcome — the upstream fetch cannot influence (and is
not needed for) the invalid-input path. -/
theorem claim_C9_invalid_postcode :
    ∀ (postcode : String) (upstream : Except ApiError Payload),
      ukpcMatch (normalise_postcode postcode.data) = false →
      search_firms postcode upstream =
        .error (.http 422 "Please provide a valid UK postcode.") := by
  intro p u h
  simp [search_firms, h]

/-- C9 witness: searching for "12345" yields the 422 error even when the
upstream would have answered. -/
theorem claim_C9_witness :
    search_firms "12345" (.ok ⟨some [demoOrg]⟩) =
      .error (.http 422 "Please provide a valid UK postcode.") :=
  claim_C9_invalid_postcode "12345" (.ok ⟨some [demoOrg]⟩) (by decide)

/-- C10: `/search` is insensitive to case and whitespace variation of its
postcode parameter: searching with the normalised postcode gives exactly
the same response as searching with the original, for every upstream
dataset. -/
theorem claim_C10_normalised_input :
    ∀ (postcode : String) (upstream : Except ApiError Payload),
      search_firms (String.mk (normalise_postcode postcode.data)) upstream =
        search_firms postcode upstream := by
  intro p u
  simp only [search_firms,
    show (String.mk (normalise_postcode p.data)).data =
      normalise_postcode p.data from rfl,
    normalise_postcode_idem]

/-- C6: `normalise_postcode` is idempotent on every input string. -/
theorem claim_C6_normalise_idem :
    ∀ x : List Char,
      normalise_postcode (normalise_postcode x) = normalise_postcode x :=
  normalise_postcode_idem

end SRA
